import Mathlib

/-!
Verification of the core decision and sampling logic of `bedfragment_ds`
(`src/main.rs`), a tool that equalizes sequencing depth across genomic
fragment files.  Text lines are modelled as Lean `String`s; an input file is
modelled as its list of lines (newline characters already stripped, as
produced by `BufRead::lines`).  Character-level helpers below mirror the Rust
string primitives used by the tool (`split`, `split_whitespace`, `trim`,
`trim_end`) so that all definitions evaluate by `decide`/`rfl`.
-/

namespace BedfragDS

/-- Split a character list at every occurrence of separator `c`, keeping empty
pieces; mirrors Rust `str::split(c)`, which always yields at least one
(possibly empty) piece. -/
def splitCh (c : Char) : List Char → List (List Char)
  | [] => [[]]
  | a :: rest =>
      let r := splitCh c rest
      if a = c then [] :: r
      else
        match r with
        | [] => [[a]]
        | h :: t => (a :: h) :: t

/-- Split a character list at every whitespace character, keeping empty
pieces (helper for `split_whitespace`). -/
def splitWs : List Char → List (List Char)
  | [] => [[]]
  | a :: rest =>
      let r := splitWs rest
      if a.isWhitespace then [] :: r
      else
        match r with
        | [] => [[a]]
        | h :: t => (a :: h) :: t

/-- The fields of a line under Rust `line.split('\t')`. -/
def tabFields (s : String) : List String :=
  (splitCh '\t' s.data).map String.mk

/-- The whitespace-separated tokens of a line, mirroring Rust
`str::split_whitespace` (empty pieces are discarded). -/
def wsTokens (s : String) : List String :=
  ((splitWs s.data).filter (fun t => !t.isEmpty)).map String.mk

/-- Whether `line.trim().is_empty()` holds in the Rust source: the line
consists of whitespace only. -/
def isBlankLine (s : String) : Bool :=
  s.data.all (fun c => c.isWhitespace)

/-- Rust `str::trim_end`: drop trailing whitespace. -/
def trimEndStr (s : String) : String :=
  String.mk ((s.data.reverse.dropWhile (fun c => c.isWhitespace)).reverse)

/-- First whitespace-separated token of a line
(`line.split_whitespace().next().unwrap()` in `parse_chrom_order`; the
`unwrap` cannot fail on a non-blank line, and the default is irrelevant). -/
def firstToken (s : String) : String :=
  (wsTokens s).headD ""

/-!
`parse_chrom_order` (src/main.rs:67-80).  The Rust code iterates
`reader.lines().enumerate()`, skips lines that are blank after trimming, and
executes `map.insert(chrom, i)` where `i` is the **enumerate index over all
lines** (blank lines included).  The `HashMap` is modelled as the list of
insertions in order; `lookupLast` returns the value of the **last** insertion
for a key, which is exactly the overwrite semantics of `HashMap::insert`.
The explicit counter argument of `chromEntries` models `enumerate()`.
-/

/-- Insertion sequence performed by the loop of `parse_chrom_order`,
starting at line index `i`. -/
def chromEntries : Nat → List String → List (String × Nat)
  | _, [] => []
  | i, l :: rest =>
      if isBlankLine l then chromEntries (i + 1) rest
      else (firstToken l, i) :: chromEntries (i + 1) rest

/-- The name-to-rank table built by `parse_chrom_order` from the lines of the
chromosome-sizes file. -/
def parse_chrom_order (lines : List String) : List (String × Nat) :=
  chromEntries 0 lines

/-- Lookup in the insertion-sequence model of the `HashMap`: the last
inserted value for the key wins (overwrite semantics). -/
def lookupLast (m : List (String × Nat)) (k : String) : Option Nat :=
  (m.reverse.find? (fun p => p.1 == k)).map Prod.snd

/-- Rust `HashMap::contains_key` in the insertion-sequence model. -/
def containsKey (m : List (String × Nat)) (k : String) : Bool :=
  (lookupLast m k).isSome

/-- The function `count_fragments` (src/main.rs:82-95): the number of lines other than the
first (index 0, unconditionally treated as a header) that are not blank after
trimming. -/
def count_fragments (file : List String) : Nat :=
  ((file.drop 1).filter (fun l => !isBlankLine l)).length

/-!
`reservoir_sample` (src/main.rs:97-120).  The first line of the file is read
separately as the header and trimmed at the end; the remaining lines are
streamed with `enumerate()`.  For the `i`-th data line: if `i < min_count`
the line is pushed; otherwise `j = random::<usize>() % (i + 1)` is drawn and,
if `j < min_count`, slot `j` is overwritten.  The unseeded random number
generator is modelled as a stream `rand : Nat → Nat` indexed by the loop
counter (exactly one draw happens at each index `i ≥ min_count`).
-/

/-- The sampling loop of `reservoir_sample`: counter `i`, reservoir `acc`,
remaining data lines. -/
def resLoop (rand : Nat → Nat) (min_count : Nat) :
    Nat → List String → List String → List String
  | _, acc, [] => acc
  | i, acc, line :: rest =>
      if i < min_count then
        resLoop rand min_count (i + 1) (acc ++ [line]) rest
      else
        let j := rand i % (i + 1)
        resLoop rand min_count (i + 1) (if j < min_count then acc.set j line else acc) rest

/-- The function `reservoir_sample`: returns the trimmed header (first line) and the
reservoir built from the data lines (all lines after the first). -/
def reservoir_sample (rand : Nat → Nat) (min_count : Nat) (file : List String) :
    String × List String :=
  (trimEndStr (file.headD ""), resLoop rand min_count 0 [] file.tail)

/-- Length invariant of the sampling loop. -/
theorem resLoop_length (rand : Nat → Nat) (t : Nat) :
    ∀ (rest : List String) (i : Nat) (acc : List String),
      acc.length = min t i →
      (resLoop rand t i acc rest).length = min t (i + rest.length) := by
  intro rest
  induction rest with
  | nil => intro i acc h; simpa [resLoop] using h
  | cons line rest ih =>
      intro i acc h
      by_cases hi : i < t
      · rw [resLoop]
        simp only [hi, if_pos]
        have := ih (i + 1) (acc ++ [line]) (by
          simp [h]
          omega)
        simpa [Nat.add_comm, Nat.add_assoc, Nat.add_left_comm] using this
      · rw [resLoop]
        simp only [hi, if_neg, if_false]
        by_cases hj : rand i % (i + 1) < t
        · have := ih (i + 1) (acc.set (rand i % (i + 1)) line) (by
            simp [List.length_set, h]
            omega)
          simp only [hj, if_pos]
          simpa [Nat.add_comm, Nat.add_assoc, Nat.add_left_comm] using this
        · have := ih (i + 1) acc (by simp [h]; omega)
          simp only [hj, if_neg, if_false]
          simpa [Nat.add_comm, Nat.add_assoc, Nat.add_left_comm] using this

/-- When the whole stream fits below the target, the loop just appends every
line in order. -/
theorem resLoop_all (rand : Nat → Nat) (t : Nat) :
    ∀ (rest : List String) (i : Nat) (acc : List String),
      i + rest.length ≤ t →
      resLoop rand t i acc rest = acc ++ rest := by
  intro rest
  induction rest with
  | nil => intro i acc _; simp [resLoop]
  | cons line rest ih =>
      intro i acc h
      have hi : i < t := by simp at h; omega
      rw [resLoop]
      simp only [hi, if_pos]
      rw [ih (i + 1) (acc ++ [line]) (by simp at h ⊢; omega)]
      simp

/-- C1: for every interval file with `m` data lines (the lines after the
header) and every target `t`, the reservoir sampler returns exactly
`min t m` lines; in particular when `m < t` it returns all `m` data lines
unchanged and in their original order, with no padding. -/
theorem reservoir_sample_exact_count (rand : Nat → Nat) (t : Nat) (file : List String) :
    (reservoir_sample rand t file).2.length = min t file.tail.length ∧
    (file.tail.length < t → (reservoir_sample rand t file).2 = file.tail) := by
  constructor
  · simpa using resLoop_length rand t file.tail 0 [] (by simp)
  · intro h
    simpa using resLoop_all rand t file.tail 0 [] (by omega)

/-- Witness for C1 at a concrete input: a file with three data lines and
target 5 is returned whole, and the reservoir size is `min 5 3 = 3`. -/
theorem reservoir_sample_exact_count_witness :
    (reservoir_sample (fun _ => 0) 5 ["hdr", "a", "b", "c"]).2 = ["a", "b", "c"] ∧
    (reservoir_sample (fun _ => 0) 5 ["hdr", "a", "b", "c"]).2.length = min 5 3 := by
  refine ⟨(reservoir_sample_exact_count (fun _ => 0) 5 ["hdr", "a", "b", "c"]).2 (by decide), ?_⟩
  simpa using (reservoir_sample_exact_count (fun _ => 0) 5 ["hdr", "a", "b", "c"]).1

/-- Overwriting one slot of a list yields a sub-permutation of the list with
the new element adjoined. -/
theorem set_subperm (l : List String) (n : Nat) (a : String) :
    (l.set n a).Subperm (a :: l) := by
  by_cases h : n < l.length
  · rw [List.set_eq_take_append_cons_drop]
    simp only [h, if_pos]
    refine ⟨a :: (l.take n ++ l.drop (n + 1)), (List.perm_middle).symm, ?_⟩
    refine List.Sublist.cons₂ a ?_
    have h1 : List.Sublist (l.drop (n + 1)) (l.drop n) := by
      have := List.tail_sublist (l.drop n)
      simpa [List.tail_drop] using this
    have h2 : List.Sublist (l.take n ++ l.drop (n + 1)) (l.take n ++ l.drop n) :=
      List.Sublist.append_left h1 _
    simpa [List.take_append_drop] using h2
  · rw [List.set_eq_of_length_le (by omega)]
    exact (List.sublist_cons_self a l).subperm

/-- Appending a common suffix preserves sub-permutation. -/
theorem subperm_append_right {l₁ l₂ : List String} (l : List String)
    (h : l₁.Subperm l₂) : (l₁ ++ l).Subperm (l₂ ++ l) := by
  obtain ⟨w, hp, hs⟩ := h
  exact ⟨w ++ l, hp.append_right l, hs.append_right l⟩

/-- The sampling loop only rearranges and discards: its result is a
sub-permutation of the reservoir so far together with the remaining lines. -/
theorem resLoop_subperm (rand : Nat → Nat) (t : Nat) :
    ∀ (rest : List String) (i : Nat) (acc : List String),
      (resLoop rand t i acc rest).Subperm (acc ++ rest) := by
  intro rest
  induction rest with
  | nil => intro i acc; simpa [resLoop] using List.Subperm.refl acc
  | cons line rest ih =>
      intro i acc
      by_cases hi : i < t
      · rw [resLoop]
        simp only [hi, if_pos]
        have := ih (i + 1) (acc ++ [line])
        simpa using this
      · rw [resLoop]
        simp only [hi, if_neg, if_false]
        by_cases hj : rand i % (i + 1) < t
        · simp only [hj, if_pos]
          have h1 := ih (i + 1) (acc.set (rand i % (i + 1)) line)
          have h2 : (acc.set (rand i % (i + 1)) line ++ rest).Subperm (acc ++ line :: rest) := by
            have h3 := subperm_append_right rest (set_subperm acc (rand i % (i + 1)) line)
            refine h3.trans ?_
            exact (List.perm_middle).symm.subperm
          exact h1.trans h2
        · simp only [hj, if_neg, if_false]
          have h1 := ih (i + 1) acc
          refine h1.trans ?_
          refine List.Sublist.subperm ?_
          exact List.Sublist.append_left (List.sublist_cons_self line rest) acc

/-- C8: every line of the reservoir sampler's output is one of the input
file's data lines — the sample is a sub-permutation of the lines after the
header, so the header line never enters the sample and no line occurs more
often in the sample than among the data lines. -/
theorem reservoir_sample_from_input (rand : Nat → Nat) (t : Nat) (file : List String) :
    (reservoir_sample rand t file).2.Subperm file.tail ∧
    (∀ l ∈ (reservoir_sample rand t file).2, l ∈ file.tail) ∧
    (∀ s : String, (reservoir_sample rand t file).2.count s ≤ file.tail.count s) := by
  have h : (reservoir_sample rand t file).2.Subperm file.tail := by
    simpa using resLoop_subperm rand t file.tail 0 []
  exact ⟨h, fun l hl => h.subset hl, fun s => h.count_le s⟩

/-!
QC filtering (src/main.rs:55-65 and 173-198 for BED mode; the BAM branch at
src/main.rs:371-396 runs the identical computation on its own counts).
Floating-point (`f64`) arithmetic is idealized as real arithmetic.  The list
`fcs` of `(file, count)` pairs mirrors `frag_counts`.  `List.filter` needs a
`Bool` predicate, so the real-number comparisons of the source are wrapped in
a classical `decide`; this is the `(*c as f64) >= cutoff` test verbatim.
-/

/-- The function `mean` (src/main.rs:55-57). -/
noncomputable def mean (values : List Nat) : ℝ :=
  (values.map (fun v => (v : ℝ))).sum / values.length

/-- The function `std_dev` (src/main.rs:59-65): square root of the population variance
(divisor `n`, i.e. `values.len()`). -/
noncomputable def std_dev (values : List Nat) (m : ℝ) : ℝ :=
  Real.sqrt ((values.map (fun v => ((v : ℝ) - m) ^ 2)).sum / values.length)

/-- The QC cutoff `(mean_val - exclude_sd * sd_val).max(0.0)`
(src/main.rs:176). -/
noncomputable def cutoff (values : List Nat) (k : ℝ) : ℝ :=
  max (mean values - k * std_dev values (mean values)) 0

/-- The QC-included list `filtered` (src/main.rs:178-182): the pairs whose
count, as a real number, is at least the cutoff. -/
noncomputable def qcFiltered (fcs : List (String × Nat)) (k : ℝ) : List (String × Nat) :=
  fcs.filter fun p =>
    @decide (cutoff (fcs.map Prod.snd) k ≤ (p.2 : ℝ)) (Classical.propDecidable _)

/-- The QC-excluded list `excluded` (src/main.rs:187-191): the pairs whose
count is strictly below the cutoff. -/
noncomputable def qcExcluded (fcs : List (String × Nat)) (k : ℝ) : List (String × Nat) :=
  fcs.filter fun p =>
    @decide ((p.2 : ℝ) < cutoff (fcs.map Prod.snd) k) (Classical.propDecidable _)

/-- The value `min_frag_count` (src/main.rs:198): the minimum count among the included
files (`None` exactly when QC included nothing, in which case the program
exits before this line). -/
noncomputable def min_frag_count (fcs : List (String × Nat)) (k : ℝ) : Option Nat :=
  ((qcFiltered fcs k).map Prod.snd).min?

/-- Folding `min` starts from the seed or lands in the list. -/
theorem foldl_min_mem (l : List Nat) : ∀ a : Nat, l.foldl min a ∈ a :: l := by
  induction l with
  | nil => intro a; simp
  | cons b l ih =>
      intro a
      show l.foldl min (min a b) ∈ a :: b :: l
      rcases List.mem_cons.mp (ih (min a b)) with h | h
      · rw [h]
        rcases min_choice a b with hab | hab <;> rw [hab] <;> simp
      · simp [h]

/-- Folding `min` is a lower bound for the seed and every element. -/
theorem foldl_min_le (l : List Nat) : ∀ a x : Nat, x ∈ a :: l → l.foldl min a ≤ x := by
  induction l with
  | nil =>
      intro a x hx
      rw [List.mem_singleton] at hx
      subst hx
      simp
  | cons b l ih =>
      intro a x hx
      simp only [List.mem_cons] at hx
      have hseed : l.foldl min (min a b) ≤ min a b := ih (min a b) (min a b) (by simp)
      show l.foldl min (min a b) ≤ x
      rcases hx with rfl | rfl | hx
      · exact le_trans hseed (min_le_left _ _)
      · exact le_trans hseed (min_le_right _ _)
      · exact ih (min a b) x (by simp [hx])

/-- Specification of Rust `Iterator::min` on the model `List.min?`. -/
theorem min?_spec {l : List Nat} {m : Nat} (h : l.min? = some m) :
    m ∈ l ∧ ∀ x ∈ l, m ≤ x := by
  cases l with
  | nil => simp [List.min?] at h
  | cons a l =>
      simp only [List.min?, Option.some.injEq] at h
      subst h
      exact ⟨foldl_min_mem l a, fun x hx => foldl_min_le l a x hx⟩

/-- C2: for a non-empty list of measured depths and threshold `k`, the QC
filter computes `cutoff = max 0 (mean - k * stddev)` where the standard
deviation is the population one (its square times `n` is the sum of squared
deviations, i.e. the divisor is `n`, not `n - 1`); it includes exactly the
files whose depth is at least the cutoff, excludes exactly the complement,
and the target depth is the minimum depth among the included files. -/
theorem qc_filter_spec (fcs : List (String × Nat)) (k : ℝ) (h : fcs ≠ []) :
    (std_dev (fcs.map Prod.snd) (mean (fcs.map Prod.snd)) ^ 2 * (fcs.map Prod.snd).length
        = ((fcs.map Prod.snd).map (fun v => ((v : ℝ) - mean (fcs.map Prod.snd)) ^ 2)).sum) ∧
    (cutoff (fcs.map Prod.snd) k
        = max 0 (mean (fcs.map Prod.snd)
            - k * std_dev (fcs.map Prod.snd) (mean (fcs.map Prod.snd)))) ∧
    (∀ p, p ∈ qcFiltered fcs k ↔
        p ∈ fcs ∧ cutoff (fcs.map Prod.snd) k ≤ (p.2 : ℝ)) ∧
    (∀ p, p ∈ qcExcluded fcs k ↔
        p ∈ fcs ∧ (p.2 : ℝ) < cutoff (fcs.map Prod.snd) k) ∧
    (∀ m, min_frag_count fcs k = some m →
        m ∈ (qcFiltered fcs k).map Prod.snd ∧ ∀ p ∈ qcFiltered fcs k, m ≤ p.2) := by
  refine ⟨?_, ?_, ?_, ?_, ?_⟩
  · have hn : ((fcs.map Prod.snd).length : ℝ) ≠ 0 := by
      simp only [List.length_map]
      exact_mod_cast fun h0 => h (List.length_eq_zero.mp h0)
    have hnn : 0 ≤ ((fcs.map Prod.snd).map (fun v => ((v : ℝ) - mean (fcs.map Prod.snd)) ^ 2)).sum := by
      apply List.sum_nonneg
      intro x hx
      simp only [List.mem_map] at hx
      obtain ⟨v, _, rfl⟩ := hx
      positivity
    rw [std_dev, Real.sq_sqrt (div_nonneg hnn (Nat.cast_nonneg _))]
    exact div_mul_cancel₀ _ hn
  · rw [cutoff, max_comm]
  · intro p
    simp [qcFiltered, List.mem_filter]
  · intro p
    simp [qcExcluded, List.mem_filter]
  · intro m hm
    obtain ⟨h1, h2⟩ := min?_spec hm
    refine ⟨h1, fun p hp => h2 p.2 ?_⟩
    exact List.mem_map.mpr ⟨p, hp, rfl⟩

/-- Witness for C2 on depths `[2, 2]` with `k = 1`: the variance is `0`, the
cutoff is `2`, and both files are included with target depth `2`. -/
theorem qc_filter_spec_witness :
    ("a", 2) ∈ qcFiltered [("a", 2), ("b", 2)] 1 := by
  have hspec := qc_filter_spec [("a", 2), ("b", 2)] 1 (by simp)
  have hmean : mean [2, 2] = 2 := by
    norm_num [mean]
  have hsd : std_dev [2, 2] (mean [2, 2]) = 0 := by
    have hz : ((([2, 2] : List Nat).map (fun v => ((v : ℝ) - mean [2, 2]) ^ 2)).sum
        / (([2, 2] : List Nat).length : ℝ)) = 0 := by
      rw [hmean]
      norm_num
    rw [std_dev, hz, Real.sqrt_zero]
  have hcut : cutoff [2, 2] 1 ≤ ((2 : Nat) : ℝ) := by
    rw [cutoff, hsd, hmean]
    norm_num
  exact (hspec.2.2.1 ("a", 2)).mpr ⟨by simp, by simpa using hcut⟩

/-!
Scenario A of the spec: three interval files with depths `{100, 105, 10}`
and `k = 1.5`.  Exact values: mean `215/3 ≈ 71.667`, population variance
`17150/9 ≈ 1905.6`, standard deviation `≈ 43.65`, cutoff `≈ 6.19`.
-/

/-- Exact mean for depths `[100, 105, 10]`. -/
theorem mean_scenarioA : mean [100, 105, 10] = 215 / 3 := by
  norm_num [mean]

/-- The population standard deviation for depths `[100, 105, 10]` lies
strictly between `388/9 ≈ 43.11` and `394/9 ≈ 43.78`. -/
theorem std_dev_scenarioA_bounds :
    (388 / 9 : ℝ) < std_dev [100, 105, 10] (mean [100, 105, 10]) ∧
    std_dev [100, 105, 10] (mean [100, 105, 10]) < 394 / 9 := by
  have harg : ((([100, 105, 10] : List Nat).map
      (fun v => ((v : ℝ) - mean [100, 105, 10]) ^ 2)).sum
        / (([100, 105, 10] : List Nat).length : ℝ)) = 17150 / 9 := by
    rw [mean_scenarioA]
    norm_num
  have hs : std_dev [100, 105, 10] (mean [100, 105, 10]) = Real.sqrt (17150 / 9) := by
    rw [std_dev, harg]
  constructor
  · rw [hs]
    refine (Real.lt_sqrt (by norm_num)).mpr (by norm_num)
  · rw [hs]
    refine (Real.sqrt_lt' (by norm_num)).mpr (by norm_num)

/-- The QC cutoff for depths `[100, 105, 10]` with `k = 3/2` lies strictly
between `6` and `7`. -/
theorem cutoff_scenarioA_bounds :
    6 < cutoff [100, 105, 10] (3 / 2) ∧ cutoff [100, 105, 10] (3 / 2) < 7 := by
  obtain ⟨h1, h2⟩ := std_dev_scenarioA_bounds
  have hc : cutoff [100, 105, 10] (3 / 2)
      = max (215 / 3 - 3 / 2 * std_dev [100, 105, 10] (mean [100, 105, 10])) 0 := by
    rw [cutoff, mean_scenarioA]
  rw [hc, max_eq_left (by nlinarith)]
  constructor <;> nlinarith

/-- C7 counterexample: for depths `{100, 105, 10}` and `k = 1.5` the cutoff
is not `7.15` (it is strictly below `7`), and the population standard
deviation is strictly above `388/9 ≈ 43.11`, not `≈ 43.01`. -/
theorem scenarioA_claimed_numbers_false :
    cutoff [100, 105, 10] (3 / 2) ≠ 143 / 20 ∧
    cutoff [100, 105, 10] (3 / 2) < 7 ∧
    (388 / 9 : ℝ) < std_dev [100, 105, 10] (mean [100, 105, 10]) := by
  obtain ⟨h1, h2⟩ := cutoff_scenarioA_bounds
  exact ⟨by intro h; rw [h] at h2; norm_num at h2, h2, std_dev_scenarioA_bounds.1⟩

/-- The three files of Scenario A with their measured depths. -/
def scenarioA : List (String × Nat) := [("f1", 100), ("f2", 105), ("f3", 10)]

/-- C7 (amended): with depths `{100, 105, 10}` and `k = 1.5`, the mean is
`215/3 ≈ 71.667`, the cutoff lies in `(6, 7)` (`≈ 6.19`), all three files
pass QC (none is excluded), the target depth is `10`, and each output of the
reservoir sampler holds exactly `10` records. -/
theorem scenarioA_amended :
    mean [100, 105, 10] = 215 / 3 ∧
    (6 < cutoff [100, 105, 10] (3 / 2) ∧ cutoff [100, 105, 10] (3 / 2) < 7) ∧
    qcFiltered scenarioA (3 / 2) = scenarioA ∧
    qcExcluded scenarioA (3 / 2) = [] ∧
    min_frag_count scenarioA (3 / 2) = some 10 ∧
    ∀ (rand : Nat → Nat) (file : List String),
      (∀ l ∈ file.tail, isBlankLine l = false) →
      (count_fragments file = 100 ∨ count_fragments file = 105 ∨ count_fragments file = 10) →
      (reservoir_sample rand 10 file).2.length = 10 := by
  have hsnd : scenarioA.map Prod.snd = [100, 105, 10] := by rfl
  have hcut7 : cutoff (scenarioA.map Prod.snd) (3 / 2) < 7 := by
    rw [hsnd]; exact cutoff_scenarioA_bounds.2
  have hpass : ∀ p ∈ scenarioA, cutoff (scenarioA.map Prod.snd) (3 / 2) ≤ (p.2 : ℝ) := by
    intro p hp
    simp only [scenarioA, List.mem_cons, List.not_mem_nil, or_false] at hp
    have h10 : (7 : ℝ) ≤ (p.2 : ℝ) := by
      rcases hp with rfl | rfl | rfl <;> norm_num
    exact le_trans (le_of_lt hcut7) h10
  have hfilt : qcFiltered scenarioA (3 / 2) = scenarioA := by
    rw [qcFiltered, List.filter_eq_self]
    intro p hp
    exact decide_eq_true (hpass p hp)
  refine ⟨mean_scenarioA, cutoff_scenarioA_bounds, hfilt, ?_, ?_, ?_⟩
  · rw [qcExcluded, List.filter_eq_nil_iff]
    intro p hp
    simp only [decide_eq_true_eq, not_lt]
    exact hpass p hp
  · rw [min_frag_count, hfilt, hsnd]
    rfl
  · intro rand file hblank hcount
    have htail : count_fragments file = file.tail.length := by
      rw [count_fragments, List.drop_one,
        List.filter_eq_self.mpr (fun l hl => by simp [hblank l hl])]
    have hge : 10 ≤ file.tail.length := by
      rw [htail] at hcount
      rcases hcount with h | h | h <;> omega
    rw [(reservoir_sample_exact_count rand 10 file).1]
    omega

/-- Witness for the amended Scenario A theorem: a concrete file with header
and ten non-blank data lines yields a reservoir of exactly ten records. -/
theorem scenarioA_amended_witness :
    (reservoir_sample (fun _ => 0) 10 ("hdr" :: List.replicate 10 "chr1\t1\t2")).2.length = 10 := by
  refine scenarioA_amended.2.2.2.2.2 (fun _ => 0) ("hdr" :: List.replicate 10 "chr1\t1\t2") ?_ ?_
  · intro l hl
    rw [List.eq_of_mem_replicate (show l ∈ List.replicate 10 "chr1\t1\t2" from hl)]
    decide
  · refine Or.inr (Or.inr ?_)
    decide

/-!
BAM-mode per-file skip guard (src/main.rs:401-411).  Every input file is
iterated; the file's depth is re-counted and the task returns early when
`sample_count < min_count as f64`, where `min_count` is the minimum depth
over the QC-included files computed at src/main.rs:356-397 by the same
mean/std-dev/cutoff filter as BED mode.
-/

/-- C9: assuming the per-file re-count returns the same depth as the QC-time
count, the BAM skip guard (skip when the re-counted depth is below the
target `min_count`) passes a file if and only if that file's depth is at
least the QC cutoff — i.e. it skips exactly the QC-excluded files. -/
theorem bam_skip_guard (fcs : List (String × Nat)) (k : ℝ) (m : Nat)
    (hm : min_frag_count fcs k = some m) :
    ∀ p ∈ fcs, (¬ ((p.2 : ℝ) < (m : ℝ)) ↔ cutoff (fcs.map Prod.snd) k ≤ (p.2 : ℝ)) := by
  rw [min_frag_count] at hm
  obtain ⟨h1, h2⟩ := min?_spec hm
  have hcutm : cutoff (fcs.map Prod.snd) k ≤ (m : ℝ) := by
    rw [List.mem_map] at h1
    obtain ⟨q, hq, hq2⟩ := h1
    rw [qcFiltered, List.mem_filter] at hq
    have := of_decide_eq_true hq.2
    rwa [hq2] at this
  intro p hp
  constructor
  · intro hnlt
    exact le_trans hcutm (not_lt.mp hnlt)
  · intro hc
    have hpf : p ∈ qcFiltered fcs k :=
      List.mem_filter.mpr ⟨hp, decide_eq_true hc⟩
    have hle : m ≤ p.2 := h2 p.2 (List.mem_map.mpr ⟨p, hpf, rfl⟩)
    exact not_lt.mpr (by exact_mod_cast hle)

/-- Witness for C9 with counts `[1, 5]` and `k = 1`: the cutoff is exactly
`1`, both files are included, the target is `1`, and the file of depth `1`
is not skipped. -/
theorem bam_skip_guard_witness :
    ¬ (((1 : Nat) : ℝ) < ((1 : Nat) : ℝ)) ↔ cutoff [1, 5] 1 ≤ ((1 : Nat) : ℝ) := by
  have hmean : mean [1, 5] = 3 := by norm_num [mean]
  have harg : ((([1, 5] : List Nat).map (fun v => ((v : ℝ) - mean [1, 5]) ^ 2)).sum
      / (([1, 5] : List Nat).length : ℝ)) = 4 := by
    rw [hmean]
    norm_num
  have hsd : std_dev [1, 5] (mean [1, 5]) = 2 := by
    rw [std_dev, harg, show (4 : ℝ) = 2 ^ 2 by norm_num, Real.sqrt_sq (by norm_num : (0 : ℝ) ≤ 2)]
  have hcut : cutoff [1, 5] 1 = 1 := by
    rw [cutoff, hsd, hmean]
    norm_num
  have hfilt : qcFiltered [("a", 1), ("b", 5)] 1 = [("a", 1), ("b", 5)] := by
    rw [qcFiltered, List.filter_eq_self]
    intro p hp
    simp only [List.mem_cons, List.not_mem_nil, or_false] at hp
    refine decide_eq_true ?_
    show cutoff [1, 5] 1 ≤ (p.2 : ℝ)
    rw [hcut]
    rcases hp with rfl | rfl <;> norm_num
  have hm : min_frag_count [("a", 1), ("b", 5)] 1 = some 1 := by
    rw [min_frag_count, hfilt]
    rfl
  have happ := bam_skip_guard [("a", 1), ("b", 5)] 1 1 hm ("a", 1) (by simp)
  exact happ

/-!
BAM-mode downsampling fraction string (src/main.rs:424-425):
`fraction = (min_count as f64 / sample_count).min(1.0)` and
`seed_fraction = format!("42.{:03}", (fraction * 1000.0) as u32)`.
`f64` arithmetic is idealized as rational arithmetic; the `as u32` cast is
truncation toward zero, saturating at `0` from below and at `u32::MAX` from
above, and `{:03}` zero-pads to a minimum width of three digits.
-/

/-- Rust `as u32` on a non-NaN float value: truncate toward zero and clamp
to `[0, u32::MAX]`. -/
def u32cast (x : ℚ) : Nat :=
  min (Int.toNat ⌊x⌋) 4294967295

/-- Rust `{:03}` formatting: decimal digits, zero-padded on the left to a
minimum width of three. -/
def pad3 (n : Nat) : String :=
  let s := toString n
  if s.length < 3 then String.mk (List.replicate (3 - s.length) '0') ++ s else s

/-- The `seed.fraction` argument string passed to `samtools view -s`. -/
def seed_fraction (fraction : ℚ) : String :=
  "42." ++ pad3 (u32cast (fraction * 1000))

/-- C10: the seed-plus-fraction string encodes `floor(fraction * 1000)`
zero-padded to three digits after `"42."`; every fraction strictly below
`0.001` yields `"42.000"`, and fraction exactly `1` yields `"42.1000"`. -/
theorem seed_fraction_spec :
    (∀ fraction : ℚ, 0 ≤ fraction → fraction < 1 / 1000 →
        seed_fraction fraction = "42.000") ∧
    seed_fraction 1 = "42.1000" ∧
    (∀ fraction : ℚ, 0 ≤ fraction → fraction ≤ 1 →
        seed_fraction fraction = "42." ++ pad3 (Int.toNat ⌊fraction * 1000⌋)) := by
  refine ⟨?_, ?_, ?_⟩
  · intro fr h0 h1
    have hf : ⌊fr * 1000⌋ = 0 := by
      rw [Int.floor_eq_zero_iff]
      constructor
      · positivity
      · nlinarith
    rw [seed_fraction, show u32cast (fr * 1000) = 0 by rw [u32cast, hf]; rfl]
    decide
  · have hf : ⌊(1 : ℚ) * 1000⌋ = (1000 : ℤ) := by norm_num
    rw [seed_fraction, u32cast, hf]
    decide
  · intro fr h0 h1
    have hle : ⌊fr * 1000⌋ ≤ 1000 := by
      have : fr * 1000 ≤ 1000 := by nlinarith
      calc ⌊fr * 1000⌋ ≤ ⌊(1000 : ℚ)⌋ := Int.floor_le_floor this
        _ = 1000 := by norm_num
    rw [seed_fraction, u32cast, min_eq_left]
    have : Int.toNat ⌊fr * 1000⌋ ≤ 1000 := by omega
    omega

/-- Witness for C10 at fraction `1/2000 < 0.001`: the encoded string is
`"42.000"`. -/
theorem seed_fraction_spec_witness :
    seed_fraction (1 / 2000) = "42.000" :=
  seed_fraction_spec.1 (1 / 2000) (by norm_num) (by norm_num)

/-!
Ranks assigned by `parse_chrom_order`.  The Rust loop enumerates **all**
lines (blank ones included) and inserts `map.insert(chrom, i)` with the raw
enumerate index `i`, so a name's rank is its 0-based line index in the sizes
file, not the count of non-blank lines seen so far.
-/

/-- The entry list `chromEntries` distributes over concatenation, shifting the counter. -/
theorem chromEntries_append (i : Nat) (xs ys : List String) :
    chromEntries i (xs ++ ys) = chromEntries i xs ++ chromEntries (i + xs.length) ys := by
  induction xs generalizing i with
  | nil => simp [chromEntries]
  | cons x xs ih =>
      simp only [List.cons_append, chromEntries, List.length_cons, List.append_eq]
      have hidx : i + 1 + xs.length = i + (xs.length + 1) := by omega
      by_cases h : isBlankLine x
      · rw [if_pos h, if_pos h, ih (i + 1), hidx]
      · rw [if_neg h, if_neg h, ih (i + 1), hidx]
        simp

/-- Last-wins lookup over a concatenation prefers the later insertions. -/
theorem lookupLast_append (m₁ m₂ : List (String × Nat)) (k : String) :
    lookupLast (m₁ ++ m₂) k = (lookupLast m₂ k).or (lookupLast m₁ k) := by
  rw [lookupLast, List.reverse_append, List.find?_append, lookupLast, lookupLast]
  cases m₂.reverse.find? (fun p => p.1 == k) <;> simp

/-- C5 (amended): in the table built by `parse_chrom_order`, a name maps to
rank `r` iff line `r` (0-based over ALL lines, blank lines included in the
numbering) is a non-blank line whose first token is the name, and no later
non-blank line has that first token (last-seen insertion wins).  Blank lines
are skipped as entries but still consume rank indices. -/
theorem parse_chrom_order_rank (lines : List String) (name : String) (r : Nat) :
    lookupLast (parse_chrom_order lines) name = some r ↔
      ((∃ l, lines[r]? = some l ∧ isBlankLine l = false ∧ firstToken l = name) ∧
       ∀ j l, r < j → lines[j]? = some l → isBlankLine l = false → firstToken l ≠ name) := by
  induction lines using List.reverseRecOn with
  | nil => simp [parse_chrom_order, chromEntries, lookupLast]
  | append_singleton xs x ih =>
      rw [parse_chrom_order, chromEntries_append, lookupLast_append]
      rw [show parse_chrom_order xs = chromEntries 0 xs from rfl] at ih
      by_cases hmatch : isBlankLine x = false ∧ firstToken x = name
      · obtain ⟨hb, ht⟩ := hmatch
        have htail : lookupLast (chromEntries (0 + xs.length) [x]) name = some xs.length := by
          simp [chromEntries, hb, lookupLast, ht]
        rw [htail]
        show some xs.length = some r ↔ _
        constructor
        · intro hr
          have hr' : r = xs.length := by
            simpa using hr.symm
          subst hr'
          refine ⟨⟨x, List.getElem?_concat_length xs x, hb, ht⟩, ?_⟩
          intro j l hj hjl
          rw [List.getElem?_eq_none (by simp; omega)] at hjl
          cases hjl
        · rintro ⟨⟨l, hl, hlb, hlt⟩, hall⟩
          have hlen : r < xs.length + 1 := by
            have := (List.getElem?_eq_some_iff.mp hl).1
            simpa using this
          by_cases hr : r < xs.length
          · exfalso
            exact hall xs.length x hr (List.getElem?_concat_length xs x) hb ht
          · have : r = xs.length := by omega
            rw [this]
      · have hx : isBlankLine x = true ∨ firstToken x ≠ name := by
          by_cases hb : isBlankLine x
          · exact Or.inl hb
          · refine Or.inr ?_
            intro ht
            exact hmatch ⟨by simpa using hb, ht⟩
        have htail : lookupLast (chromEntries (0 + xs.length) [x]) name = none := by
          by_cases hb : isBlankLine x
          · simp [chromEntries, hb, lookupLast]
          · have ht : firstToken x ≠ name := by
              rcases hx with hx1 | hx1
              · exact absurd hx1 hb
              · exact hx1
            simp [chromEntries, hb, lookupLast, List.find?, ht]
        rw [htail]
        show lookupLast (chromEntries 0 xs) name = some r ↔ _
        rw [ih]
        constructor
        · rintro ⟨⟨l, hl, hlb, hlt⟩, hall⟩
          have hrlen : r < xs.length := (List.getElem?_eq_some_iff.mp hl).1
          refine ⟨⟨l, ?_, hlb, hlt⟩, ?_⟩
          · rw [List.getElem?_append_left hrlen]
            exact hl
          · intro j l' hj hjl hlb'
            by_cases hjx : j < xs.length
            · rw [List.getElem?_append_left hjx] at hjl
              exact hall j l' hj hjl hlb'
            · by_cases hje : j = xs.length
              · subst hje
                rw [List.getElem?_concat_length] at hjl
                injection hjl with he
                subst he
                rcases hx with hx1 | hx1
                · rw [hx1] at hlb'
                  cases hlb'
                · exact hx1
              · rw [List.getElem?_eq_none (by simp; omega)] at hjl
                cases hjl
        · rintro ⟨⟨l, hl, hlb, hlt⟩, hall⟩
          have hrlen : r < xs.length + 1 := by
            simpa using (List.getElem?_eq_some_iff.mp hl).1
          have hrx : r < xs.length := by
            by_contra hge
            have hre : r = xs.length := by omega
            subst hre
            rw [List.getElem?_concat_length] at hl
            injection hl with he
            subst he
            rcases hx with hx1 | hx1
            · rw [hx1] at hlb
              cases hlb
            · exact hx1 hlt
          refine ⟨⟨l, ?_, hlb, hlt⟩, ?_⟩
          · rw [List.getElem?_append_left hrx] at hl
            exact hl
          · intro j l' hj hjl hlb'
            have hjlen : j < xs.length := (List.getElem?_eq_some_iff.mp hjl).1
            refine hall j l' hj ?_ hlb'
            rw [List.getElem?_append_left hjlen]
            exact hjl

/-- Witness for the amended C5 theorem at a concrete sizes file: in
`["chr1 10", "chr2 20"]` the name `chr2` gets rank `1`. -/
theorem parse_chrom_order_rank_witness :
    lookupLast (parse_chrom_order ["chr1 10", "chr2 20"]) "chr2" = some 1 := by
  refine (parse_chrom_order_rank ["chr1 10", "chr2 20"] "chr2" 1).mpr
    ⟨⟨"chr2 20", by decide, by decide, by decide⟩, ?_⟩
  intro j l hj hjl
  rw [List.getElem?_eq_none (by simp; omega)] at hjl
  cases hjl

/-- C5 counterexample: with a blank line interleaved
(`["chrA", "", "chrB"]`), the second non-blank line `chrB` receives rank `2`
— its raw line index — not the claimed count `1` of non-blank lines seen so
far, so ranks are not consecutive over the non-blank lines. -/
theorem parse_chrom_order_rank_gap :
    lookupLast (parse_chrom_order ["chrA", "", "chrB"]) "chrB" = some 2 ∧
    lookupLast (parse_chrom_order ["chrA", "", "chrB"]) "chrB" ≠ some 1 := by
  decide

/-!
Record ordering after sampling (src/main.rs:218-235).  `sample.retain`
keeps the lines whose first tab field is a key of the order map;
`sample.sort_by` then sorts with a comparator that compares chromosome ranks
(`usize::MAX` default for a missing key, unreachable after `retain`) and, on
equal ranks, evaluates `a_parts[1]` / `b_parts[1]` — an index that panics
when a line has no second tab field — and compares
`parse::<u32>().unwrap_or(0)` values.  Rust's `sort_by` is a stable sort,
modelled by `List.mergeSort`.
-/

/-- Leading chromosome token: `line.split('\t').next().unwrap()` (the
`unwrap` cannot fail because `split` always yields a first piece). -/
def chromOf (s : String) : String :=
  (tabFields s).headD ""

/-- The `retain` step: keep lines whose chromosome is a key of the order
map (src/main.rs:219-222). -/
def retainKnown (om : List (String × Nat)) (sample : List String) : List String :=
  sample.filter (fun l => containsKey om (chromOf l))

/-- Chromosome rank used by the comparator:
`*order_map.get(a_parts[0]).unwrap_or(&usize::MAX)`. -/
def lineRank (om : List (String × Nat)) (s : String) : Nat :=
  (lookupLast om (chromOf s)).getD 18446744073709551615

/-- Digit-list accumulator for `str::parse::<u32>` (`none` on any
non-digit character). -/
def decDigitsVal (cs : List Char) : Option Nat :=
  cs.foldl
    (fun acc c =>
      match acc with
      | none => none
      | some v => if c.isDigit then some (v * 10 + (c.toNat - 48)) else none)
    (some 0)

/-- Rust `str::parse::<u32>().unwrap_or(0)`: an optional leading `+`
followed by at least one decimal digit, value below `2^32`; any parse
failure (including overflow) falls back to `0`. -/
def parseU32 (t : String) : Nat :=
  let cs :=
    match t.data with
    | '+' :: rest => rest
    | cs => cs
  if cs.isEmpty then 0
  else
    match decDigitsVal cs with
    | some v => if v < 4294967296 then v else 0
    | none => 0

/-- Start coordinate of a record as the comparator reads it when the second
tab field exists: `a_parts[1].parse::<u32>().unwrap_or(0)`. -/
def startOf (s : String) : Nat :=
  parseU32 (((tabFields s)[1]?).getD "")

/-- The comparator of `sample.sort_by` (src/main.rs:224-235) as a partial
function: `none` models the `a_parts[1]` / `b_parts[1]` index panic, which
is reached exactly when the two ranks are equal and a line has no second
tab field. -/
def cmpLines (om : List (String × Nat)) (a b : String) : Option Ordering :=
  let aRank := lineRank om a
  let bRank := lineRank om b
  if aRank = bRank then
    match (tabFields a)[1]?, (tabFields b)[1]? with
    | some sa, some sb => some (compare (parseU32 sa) (parseU32 sb))
    | _, _ => none
  else some (compare aRank bRank)

/-- Total `≤`-version of the comparator: rank ascending, then parsed start
coordinate ascending. -/
def lineLe (om : List (String × Nat)) (a b : String) : Bool :=
  decide (lineRank om a < lineRank om b ∨
    (lineRank om a = lineRank om b ∧ startOf a ≤ startOf b))

/-- The retain-then-stable-sort step of the BED pipeline. -/
def sortStep (om : List (String × Nat)) (sample : List String) : List String :=
  (retainKnown om sample).mergeSort (lineLe om)

/-- The relation `lineLe` is transitive. -/
theorem lineLe_trans (om : List (String × Nat)) :
    ∀ a b c : String, lineLe om a b = true → lineLe om b c = true → lineLe om a c = true := by
  intro a b c hab hbc
  have h1 := of_decide_eq_true hab
  have h2 := of_decide_eq_true hbc
  refine decide_eq_true ?_
  omega

/-- The relation `lineLe` is total. -/
theorem lineLe_total (om : List (String × Nat)) :
    ∀ a b : String, (lineLe om a b || lineLe om b a) = true := by
  intro a b
  simp only [lineLe, Bool.or_eq_true, decide_eq_true_eq]
  omega

/-- C3 counterexample: with `chr1` a known chromosome, two retained records
`"chr1"` (no tab, hence no start field) tie on rank and the source
comparator evaluates `a_parts[1]`, which does not exist: the comparison is
undefined (an index panic in Rust), not "unparsable coordinate treated as
0" — so the comparison is not total on retained records. -/
theorem sort_comparator_not_total :
    retainKnown (parse_chrom_order ["chr1 248956422"]) ["chr1", "chr1"] = ["chr1", "chr1"] ∧
    cmpLines (parse_chrom_order ["chr1 248956422"]) "chr1" "chr1" = none := by
  decide

/-- C3 (amended): provided every retained record has at least two tab
fields (otherwise the comparator panics on an equal-rank pair), the sort
output contains only records with known chromosomes, is a permutation of
the retained records, is ordered by chromosome rank and then by parsed
start coordinate (unparsable coordinates reading as 0), agrees with the
source comparator, and preserves the pre-sort relative order of records
with identical rank and start (stability). -/
theorem sortStep_spec (om : List (String × Nat)) (sample : List String)
    (hwf : ∀ l ∈ retainKnown om sample, 2 ≤ (tabFields l).length) :
    (∀ l ∈ sortStep om sample, containsKey om (chromOf l) = true) ∧
    (sortStep om sample).Perm (retainKnown om sample) ∧
    List.Pairwise
      (fun a b => lineRank om a < lineRank om b ∨
        (lineRank om a = lineRank om b ∧ startOf a ≤ startOf b))
      (sortStep om sample) ∧
    (∀ a b : String, a ∈ retainKnown om sample → b ∈ retainKnown om sample →
      cmpLines om a b = some
        (if lineRank om a = lineRank om b
          then compare (startOf a) (startOf b)
          else compare (lineRank om a) (lineRank om b))) ∧
    (∀ r s : Nat,
      (sortStep om sample).filter (fun l => lineRank om l == r && startOf l == s)
        = (retainKnown om sample).filter (fun l => lineRank om l == r && startOf l == s)) := by
  have hperm : (sortStep om sample).Perm (retainKnown om sample) :=
    List.mergeSort_perm (retainKnown om sample) (lineLe om)
  refine ⟨?_, hperm, ?_, ?_, ?_⟩
  · intro l hl
    have hmem : l ∈ retainKnown om sample := hperm.mem_iff.mp hl
    rw [retainKnown, List.mem_filter] at hmem
    exact hmem.2
  · have hs := List.sorted_mergeSort (lineLe_trans om) (lineLe_total om) (retainKnown om sample)
    exact hs.imp (fun h => of_decide_eq_true h)
  · intro a b ha hb
    have ha2 : 1 < (tabFields a).length := hwf a ha
    have hb2 : 1 < (tabFields b).length := hwf b hb
    rw [cmpLines]
    by_cases hr : lineRank om a = lineRank om b
    · rw [if_pos hr, List.getElem?_eq_getElem ha2, List.getElem?_eq_getElem hb2, if_pos hr]
      have hsa : startOf a = parseU32 ((tabFields a)[1]) := by
        rw [startOf, List.getElem?_eq_getElem ha2]
        rfl
      have hsb : startOf b = parseU32 ((tabFields b)[1]) := by
        rw [startOf, List.getElem?_eq_getElem hb2]
        rfl
      rw [hsa, hsb]
    · rw [if_neg hr, if_neg hr]
  · intro r s
    set key : String → Bool := fun l => lineRank om l == r && startOf l == s with hkey
    have hsublist : ((retainKnown om sample).filter key).Sublist
        ((retainKnown om sample).mergeSort (lineLe om)) := by
      refine List.sublist_mergeSort (lineLe_trans om) (lineLe_total om) ?_
        (List.filter_sublist _)
      refine List.pairwise_of_forall_mem_list ?_
      intro a ha b hb
      rw [List.mem_filter] at ha hb
      have ha' := ha.2
      have hb' := hb.2
      rw [hkey] at ha' hb'
      simp only [Bool.and_eq_true, beq_iff_eq] at ha' hb'
      refine decide_eq_true (Or.inr ⟨?_, ?_⟩)
      · rw [ha'.1, hb'.1]
      · rw [ha'.2, hb'.2]
    have hsub2 : ((retainKnown om sample).filter key).Sublist
        ((sortStep om sample).filter key) := by
      have := List.Sublist.filter key hsublist
      rwa [List.filter_filter, show (fun a => key a && key a) = key by
        funext a; cases key a <;> rfl] at this
    have hlen : ((sortStep om sample).filter key).length
        = ((retainKnown om sample).filter key).length :=
      (hperm.filter key).length_eq
    exact (hsub2.eq_of_length hlen.symm).symm

/-- Witness for the amended C3 theorem on a concrete order map and sample:
the unknown chromosome `chrX` is dropped while the rest is a permutation of
the retained records. -/
theorem sortStep_spec_witness :
    (sortStep (parse_chrom_order ["chr1 1", "chr2 2"])
        ["chr2\t5", "chr1\t7\tx", "chrX\t1", "chr1\t3"]).Perm
      (retainKnown (parse_chrom_order ["chr1 1", "chr2 2"])
        ["chr2\t5", "chr1\t7\tx", "chrX\t1", "chr1\t3"]) :=
  (sortStep_spec (parse_chrom_order ["chr1 1", "chr2 2"])
    ["chr2\t5", "chr1\t7\tx", "chrX\t1", "chr1\t3"] (by decide)).2.1

/-!
Per-file task orchestration in BED mode (the `par_iter` closure at
src/main.rs:202-349).  The closure's interaction with the outside world is
abstracted into an environment of stage results: the reservoir-sampling read
either succeeds or errors (`if let Ok(..)`); the local write of the
downsampled BED uses `File::create(..).unwrap()` / `writeln!(..).unwrap()`
(a failure is a Rust panic); each delegated stage either panics (`.expect`
on a failed spawn, or a failed `File::create(..).unwrap()` for its stdout
redirection), exits non-zero, or succeeds.  A non-zero exit of `bedtools
sort`, `bedtools coverage`, `awk` or `sort` logs and `return`s from the
closure — before the cleanup block at src/main.rs:338-344 — while the final
`bedGraphToBigWig` stage falls through to cleanup on success and failure
alike.  A panic escaping a rayon worker aborts the whole process with a
non-zero exit status; `main` otherwise returns `Ok(())`.
-/

/-- Result of one delegated pipeline stage: `crash` models a Rust panic
(failed spawn hitting `.expect`, or the stage's `File::create` redirection
failing its `unwrap`), `exitFail` a process that ran but exited non-zero,
`exitOk` success. -/
inductive StageRes
  | crash
  | exitFail
  | exitOk
deriving DecidableEq, Fintype

/-- Terminal state of a per-file task; `crashed` means a panic escaped the
worker and the process aborts. -/
inductive TaskEnd
  | completed
  | failed
  | crashed
deriving DecidableEq, Fintype

/-- The files a BED task creates, named by their role in the pipeline. -/
inductive Artifact
  | outBed
  | sortedBed
  | coverageBed
  | bedGraph
  | sortedBedGraph
  | bigwig
deriving DecidableEq, Fintype

/-- Environment of one BED per-file task: success or failure of sampling,
of the local write, and of each delegated stage. -/
structure BedEnv where
  sampleOk : Bool
  localWriteOk : Bool
  sortRes : StageRes
  covRes : StageRes
  awkRes : StageRes
  bgSortRes : StageRes
  bwRes : StageRes
deriving DecidableEq

/-- Observable outcome of one task: terminal status, whether the cleanup
block (src/main.rs:338-344) was reached, and which files remain on disk at
the end. -/
structure TaskOutcome where
  status : TaskEnd
  cleanupRan : Bool
  artifacts : List Artifact
deriving DecidableEq

/-- The five intermediate artifacts removed by the cleanup block
(src/main.rs:339-343), in creation order. -/
def intermediates : List Artifact :=
  [.outBed, .sortedBed, .coverageBed, .bedGraph, .sortedBedGraph]

/-- One BED per-file task, mirroring the control flow of the closure at
src/main.rs:202-349.  Artifacts record the files created up to the point
the task stops (each stage's output redirection file is created before the
stage runs, so it exists even when the stage then exits non-zero). -/
def runBedTask (e : BedEnv) (keepBedgraph : Bool) : TaskOutcome :=
  if !e.sampleOk then
    { status := .failed, cleanupRan := false, artifacts := [] }
  else if !e.localWriteOk then
    { status := .crashed, cleanupRan := false, artifacts := [.outBed] }
  else
    match e.sortRes with
    | .crash =>
        { status := .crashed, cleanupRan := false, artifacts := [.outBed, .sortedBed] }
    | .exitFail =>
        { status := .failed, cleanupRan := false, artifacts := [.outBed, .sortedBed] }
    | .exitOk =>
        match e.covRes with
        | .crash =>
            { status := .crashed, cleanupRan := false,
              artifacts := [.outBed, .sortedBed, .coverageBed] }
        | .exitFail =>
            { status := .failed, cleanupRan := false,
              artifacts := [.outBed, .sortedBed, .coverageBed] }
        | .exitOk =>
            match e.awkRes with
            | .crash =>
                { status := .crashed, cleanupRan := false,
                  artifacts := [.outBed, .sortedBed, .coverageBed, .bedGraph] }
            | .exitFail =>
                { status := .failed, cleanupRan := false,
                  artifacts := [.outBed, .sortedBed, .coverageBed, .bedGraph] }
            | .exitOk =>
                match e.bgSortRes with
                | .crash =>
                    { status := .crashed, cleanupRan := false, artifacts := intermediates }
                | .exitFail =>
                    { status := .failed, cleanupRan := false, artifacts := intermediates }
                | .exitOk =>
                    match e.bwRes with
                    | .crash =>
                        { status := .crashed, cleanupRan := false, artifacts := intermediates }
                    | .exitFail =>
                        { status := .failed, cleanupRan := true,
                          artifacts := if keepBedgraph then intermediates else [] }
                    | .exitOk =>
                        { status := .completed, cleanupRan := true,
                          artifacts :=
                            if keepBedgraph then intermediates ++ [.bigwig] else [.bigwig] }

/-- Exit status of the whole process: `main` returns `Ok(())` after the
parallel loop, so the process exits 0 unless some worker panicked. -/
def processExit (outs : List TaskOutcome) : Nat :=
  if outs.any (fun t => decide (t.status = .crashed)) then 101 else 0

/-- C4 counterexample: a task whose `bedtools sort` stage exits non-zero
(all other stages fine, retain option unset) ends `Failed`, yet the cleanup
block is never reached and the two artifacts created so far remain on
disk. -/
theorem failed_sort_skips_cleanup :
    (runBedTask ⟨true, true, .exitFail, .exitOk, .exitOk, .exitOk, .exitOk⟩ false).status
        = .failed ∧
    (runBedTask ⟨true, true, .exitFail, .exitOk, .exitOk, .exitOk, .exitOk⟩ false).cleanupRan
        = false ∧
    Artifact.outBed
        ∈ (runBedTask ⟨true, true, .exitFail, .exitOk, .exitOk, .exitOk, .exitOk⟩ false).artifacts := by
  decide

set_option synthInstance.maxSize 2000 in
/-- C4 (amended): the cleanup block runs exactly when the task reaches the
final track-encoding stage (every earlier stage succeeded and the final
stage did not panic); an error in an earlier delegated stage marks the task
Failed but returns before cleanup, leaving the artifacts created so far on
disk (unless the failure was in sampling, where nothing was created); when
cleanup does run, the intermediates are all removed unless the retain
option is set, in which case they all remain regardless of terminal
status. -/
theorem cleanup_only_after_final_stage :
    ∀ (sm lw : Bool) (sr cr ar br bw : StageRes) (keep : Bool),
      ((runBedTask ⟨sm, lw, sr, cr, ar, br, bw⟩ keep).cleanupRan = true ↔
        (sm = true ∧ lw = true ∧ sr = .exitOk ∧
          cr = .exitOk ∧ ar = .exitOk ∧ br = .exitOk ∧
          bw ≠ .crash)) ∧
      ((runBedTask ⟨sm, lw, sr, cr, ar, br, bw⟩ keep).cleanupRan = true → keep = false →
        ∀ a ∈ intermediates, a ∉ (runBedTask ⟨sm, lw, sr, cr, ar, br, bw⟩ keep).artifacts) ∧
      ((runBedTask ⟨sm, lw, sr, cr, ar, br, bw⟩ keep).cleanupRan = true → keep = true →
        ∀ a ∈ intermediates, a ∈ (runBedTask ⟨sm, lw, sr, cr, ar, br, bw⟩ keep).artifacts) ∧
      ((runBedTask ⟨sm, lw, sr, cr, ar, br, bw⟩ keep).status = .failed →
        (runBedTask ⟨sm, lw, sr, cr, ar, br, bw⟩ keep).cleanupRan = false →
        sm = false ∨ (runBedTask ⟨sm, lw, sr, cr, ar, br, bw⟩ keep).artifacts ≠ []) := by
  decide

/-- Witness for the amended C4 theorem: when the final track-encoding stage
fails but every earlier stage succeeded and the retain option is unset, the
cleanup ran and no intermediate artifact remains. -/
theorem cleanup_only_after_final_stage_witness :
    ∀ a ∈ intermediates,
      a ∉ (runBedTask ⟨true, true, .exitOk, .exitOk, .exitOk, .exitOk, .exitFail⟩ false).artifacts :=
  (cleanup_only_after_final_stage
    true true .exitOk .exitOk .exitOk .exitOk .exitFail false).2.1 (by decide) rfl

/-- C6 counterexample: a failed local write of the downsampled BED file
does not mark the task `Failed` — it panics the worker (crash), and the
process exit status is non-zero rather than successful. -/
theorem local_write_failure_panics :
    (runBedTask ⟨true, false, .exitOk, .exitOk, .exitOk, .exitOk, .exitOk⟩ false).status
        = .crashed ∧
    (runBedTask ⟨true, false, .exitOk, .exitOk, .exitOk, .exitOk, .exitOk⟩ false).status
        ≠ .failed ∧
    processExit [runBedTask ⟨true, false, .exitOk, .exitOk, .exitOk, .exitOk, .exitOk⟩ false]
        ≠ 0 := by
  decide

set_option synthInstance.maxSize 2000 in
/-- C6 (amended): a sampling error is file-scoped (the task ends Failed);
a local write failure instead panics the worker, and the process exits
successfully if and only if no task crashed — so delegated non-zero exits
and sampling errors leave the exit status 0, while a local write failure
makes the whole run exit non-zero. -/
theorem write_failure_not_recoverable :
    (∀ (sm lw : Bool) (sr cr ar br bw : StageRes) (keep : Bool),
      (sm = true → lw = false →
        (runBedTask ⟨sm, lw, sr, cr, ar, br, bw⟩ keep).status = .crashed) ∧
      (sm = false → (runBedTask ⟨sm, lw, sr, cr, ar, br, bw⟩ keep).status = .failed) ∧
      (lw = true → sr ≠ .crash → cr ≠ .crash →
        ar ≠ .crash → br ≠ .crash → bw ≠ .crash →
        (runBedTask ⟨sm, lw, sr, cr, ar, br, bw⟩ keep).status ≠ .crashed)) ∧
    (∀ outs : List TaskOutcome, processExit outs = 0 ↔ ∀ t ∈ outs, t.status ≠ .crashed) := by
  constructor
  · decide
  · intro outs
    rw [processExit]
    split_ifs with h
    · simp only [List.any_eq_true, decide_eq_true_eq] at h
      obtain ⟨t, ht, hc⟩ := h
      constructor
      · intro h0
        exact absurd h0 (by norm_num)
      · intro hall
        exact absurd hc (hall t ht)
    · simp only [List.any_eq_true, decide_eq_true_eq, not_exists, not_and] at h
      exact ⟨fun _ t ht => h t ht, fun _ => rfl⟩

/-- Witness for the amended C6 theorem: a concrete task with a failing
local write crashes, and a run whose only task failed in a delegated stage
still exits 0. -/
theorem write_failure_not_recoverable_witness :
    (runBedTask ⟨true, false, .exitOk, .exitOk, .exitOk, .exitOk, .exitOk⟩ true).status
        = .crashed ∧
    processExit [runBedTask ⟨true, true, .exitFail, .exitOk, .exitOk, .exitOk, .exitOk⟩ true]
        = 0 := by
  refine ⟨(write_failure_not_recoverable.1
    true false .exitOk .exitOk .exitOk .exitOk .exitOk true).1 rfl rfl, ?_⟩
  refine (write_failure_not_recoverable.2 _).mpr ?_
  intro t ht
  rw [List.mem_singleton] at ht
  subst ht
  decide

end BedfragDS
